import Mathlib

set_option maxHeartbeats 1000000

/-!
A shallow embedding of `odoorpc/models.py` (the `Model` recordset proxy).

Modelling conventions:
* Python object identity for the per-recordset field cache and pending-write
  buffer is modelled by heap references (`Nat` tokens) into an explicit `Heap`.
* Python class objects (`MetaModel` fabricates new classes in `with_env`) are
  modelled by a `ModelCls` structure carrying a `token : Nat`; every class
  creation takes a fresh token, so structural equality of `ModelCls` values
  coincides with Python class identity.
* The remote side (the `execute_kw` transport) is a parameter: `Remote` holds
  the result-producing functions for the `read` and `default_get` RPCs, and
  every operation additionally reports the list of RPC calls it issued.
* Fallible operations return `Except`.
-/

namespace Odoorpc

/-- Identifier scalars that can appear in the argument of `_normalize_ids`
(`NORMALIZED_TYPES = (int, str, bytes)` in `models.py`). -/
inductive PyId
  | intId (n : Int)
  | strId (s : String)
  | bytesId (b : List Nat)
deriving DecidableEq

/-- The possible inputs of `_normalize_ids`: Python `None`, a scalar of one of
the normalized types, or a list of identifiers. -/
inductive IdsInput
  | none_
  | int (n : Int)
  | str (s : String)
  | bytes (b : List Nat)
  | list (l : List PyId)
deriving DecidableEq

/-- Python truthiness (`not ids`) of an `IdsInput`: `None`, `0`, the empty
string, the empty byte string and the empty list are falsy. -/
def pyFalsy : IdsInput → Bool
  | .none_ => true
  | .int n => n == 0
  | .str s => s == ""
  | .bytes b => b.isEmpty
  | .list _l => _l.isEmpty

/-- `ids.__class__ in NORMALIZED_TYPES` (exact-class membership test). -/
def isNormalizedType : IdsInput → Bool
  | .int _ => true
  | .str _ => true
  | .bytes _ => true
  | _ => false

/-- `_normalize_ids` from `models.py` lines 26-32:
`if not ids: return []` / `if ids.__class__ in NORMALIZED_TYPES: return [ids]`
/ `return list(ids)`.  The two catch-all arms are unreachable: a scalar of a
normalized type is caught by the second branch, and `None` is falsy. -/
def _normalize_ids (ids : IdsInput) : List PyId :=
  if pyFalsy ids then []
  else if isNormalizedType ids then
    match ids with
    | .int n => [.intId n]
    | .str s => [.strId s]
    | .bytes b => [.bytesId b]
    | _ => []
  else
    match ids with
    | .list l => l
    | _ => []

/-- Context map of an environment: a Python dict with string keys.  Modelled
as an association list whose update operations keep dict lookup semantics. -/
abbrev Ctx := List (String × Int)

/-- Python dict lookup `d.get(k)` / `k in d`: the value of the unique entry
with key `k`, scanning left to right. -/
def dictGet {α : Type} (d : List (String × α)) (k : String) : Option α :=
  match d with
  | [] => none
  | p :: rest => if p.1 = k then some p.2 else dictGet rest k

/-- Python dict item assignment `d[k] = v`: update the entry in place when the
key is present, append it otherwise. -/
def dictSet {α : Type} (d : List (String × α)) (k : String) (v : α) :
    List (String × α) :=
  if k ∈ d.map Prod.fst then
    d.map (fun p => if p.1 = k then (k, v) else p)
  else d ++ [(k, v)]

/-- Python `dict(base, **kvs)`: copy `base`, then assign every pair of `kvs`
in order (later assignments win). -/
def dictMerge {α : Type} (base kvs : List (String × α)) : List (String × α) :=
  kvs.foldl (fun d p => dictSet d p.1 p.2) base

/-- The environment a model class or recordset is bound to.  Only the context
map is relevant to this module; the session handle is external. -/
structure Env where
  ctx : Ctx
deriving DecidableEq

/-- Modelled from the spec: `Environment.__call__` (odoorpc/env.py is not in
src/) derives a new environment carrying the given, already merged, context
map; `with_context` always passes the fully merged context to it. -/
def Env.withCtx (e : Env) (c : Ctx) : Env :=
  { e with ctx := c }

/-- Field values as stored in the cache.  `vFalse` is the Python `False`
sentinel stored by `_init_values` for fields absent from `default_get`. -/
inductive PyVal
  | vFalse
  | vInt (n : Int)
  | vStr (s : String)
deriving DecidableEq

/-- A bound model class (an instance of `MetaModel`).  `token` models Python
class-object identity: `with_env` fabricates a brand-new class via
`type(cls.__name__, cls.__bases__, dict(cls.__dict__))`, so every class
creation receives a fresh token.  `columns` is `_columns` as a list of
`(field name, has relation)` pairs in iteration order. -/
structure ModelCls where
  token : Nat
  name : String
  columns : List (String × Bool)
  env : Env
deriving DecidableEq

/-- The `(record, field)` back-reference `_from_record` of a child recordset:
the parent's primary id, the field name, and the heap reference of the
parent's `_values_to_write` buffer. -/
structure ParentRef where
  parentId : Option Nat
  fieldName : String
  writesRef : Nat
deriving DecidableEq

/-- A recordset (an instance of `Model`).  `valuesRef` and `writesRef` are
heap references standing for the identities of the `_values` and
`_values_to_write` dict objects. -/
structure Recordset where
  cls : ModelCls
  envLocal : Option Env
  fromRecord : Option ParentRef
  ids : List Nat
  valuesRef : Nat
  writesRef : Nat
deriving DecidableEq

/-- `Model.env` property: `self._env_local` when set, else the class `_env`. -/
def Recordset.env (r : Recordset) : Env :=
  r.envLocal.getD r.cls.env

/-- `Model.id` property: `self._ids[0] if self._ids else None`. -/
def Recordset.id (r : Recordset) : Option Nat :=
  r.ids.head?

/-- Python truthiness of a recordset: `__nonzero__`/`__len__` make
`bool(records)` equal to `bool(records._ids)`. -/
def Recordset.truthy (r : Recordset) : Bool :=
  !r.ids.isEmpty

/-- One relational command tuple `(opcode, id)`: opcode 3 = unlink,
opcode 4 = link. -/
abbrev Cmd := Nat × Nat

/-- A relational command list as accumulated by `__iadd__`/`__isub__`. -/
abbrev CmdList := List Cmd

/-- The contents of a `_values` dict: field name → record id (or `none` for
the virtual-record key `None`) → cached value. -/
def Cache := String → Option Nat → Option PyVal

/-- The contents of a `_values_to_write` dict, restricted to the relational
command lists read and written by `__iadd__`/`__isub__`. -/
def WBuf := String → Option Nat → Option CmdList

def emptyCache : Cache := fun _ _ => none

def emptyWBuf : WBuf := fun _ _ => none

/-- The heap: maps references to cache / pending-write-buffer objects.
`next` is the next fresh reference. -/
structure Heap where
  caches : Nat → Cache
  writes : Nat → WBuf
  next : Nat

/-- Overwrite the cache object stored at `ref`. -/
def Heap.setCacheAt (h : Heap) (ref : Nat) (c : Cache) : Heap :=
  { h with caches := fun n => if n = ref then c else h.caches n }

/-- One row returned by the remote `read` RPC: the record id plus the other
`(field, value)` entries of the row dict. -/
structure Row where
  id : Nat
  vals : List (String × PyVal)
deriving DecidableEq

/-- The remote side consumed by `_init_values`: the result-producing
functions of the `read` and `default_get` RPCs.  Arguments: model name,
ids/field-name list(s), context. -/
structure Remote where
  read : String → List Nat → List String → Ctx → List Row
  default_get : String → List String → Ctx → String → Option PyVal

/-- An RPC round-trip issued by the loading routine, for observing which
remote operations a code path triggers. -/
inductive RpcEvent
  | readCall (model : String) (ids : List Nat) (fields : List String)
  | defaultGetCall (model : String) (fields : List String)
deriving DecidableEq

/-- Errors raised by the loading routine: the "RecordNotFound" condition of
the spec (`ValueError("There is no '<model>' record with IDs ...")` in the
source), carrying the entity name and the set of unresolved identifiers. -/
inductive LoadError
  | recordNotFound (model : String) (ids : Finset Nat)
deriving DecidableEq

/-- Errors raised by `__iadd__`/`__isub__` (`odoorpc.error.InternalError`;
error.py is not in src/, the error is modelled as a tagged message). -/
inductive PyErr
  | internalError (msg : String)
deriving DecidableEq

/-- The identifier argument of `_browse`/`browse`: `browse` receives an int
or a list of ints (or `None`); this specializes `_normalize_ids` to those
inputs. -/
inductive NatIds
  | none_
  | scalar (n : Nat)
  | list (l : List Nat)
deriving DecidableEq

/-- `_normalize_ids` restricted to the integer inputs reaching `_browse`:
falsy inputs (`None`, `0`, `[]`) give `[]`, an int scalar gives a singleton,
a list is materialized unchanged. -/
def normalizeNatIds : NatIds → List Nat
  | .none_ => []
  | .scalar n => if n == 0 then [] else [n]
  | .list l => if l.isEmpty then [] else l

/-- The non-relational field names of a catalog:
`[f for f in _columns if not getattr(field, 'relation', False)]`. -/
def basicFields (columns : List (String × Bool)) : List String :=
  (columns.filter (fun c => !c.2)).map Prod.fst

/-- Store one field value: `self._values[field][key] = v`. -/
def cacheSet (c : Cache) (f : String) (k : Option Nat) (v : PyVal) : Cache :=
  fun f2 k2 => if f2 = f ∧ k2 = k then some v else c f2 k2

/-- Store one `read` row: for every non-`id` entry of the row dict,
`self._values[field_name][row['id']] = row[field_name]`. -/
def rowInto (c : Cache) (row : Row) : Cache :=
  (row.vals.filter (fun p => p.1 != "id")).foldl
    (fun acc p => cacheSet acc p.1 (some row.id) p.2) c

/-- The cache contents produced by folding all returned rows, in order. -/
def rowsCache (rows : List Row) : Cache :=
  rows.foldl rowInto emptyCache

/-- The cache contents produced by the default-values branch:
`self._values[field][None] = default_get.get(field, False)` for every
catalog field. -/
def defaultsCache (cols : List String) (dg : String → Option PyVal) : Cache :=
  fun f k => if f ∈ cols ∧ k = none then some ((dg f).getD PyVal.vFalse)
             else none

/-- `Model._init_values` (models.py lines 332-372): with a non-empty id list,
bulk-`read` the non-relational fields, record each returned row, and fail
with the RecordNotFound condition when `set(self.ids) - ids_fetched` is
non-empty; with an empty id list, fetch `default_get` over all catalog
fields and store the defaults (or `False`) under the `None` key.  Returns
the resulting cache contents and the RPC call issued. -/
def _init_values (name : String) (columns : List (String × Bool))
    (ids : List Nat) (remote : Remote) (ctx : Ctx) :
    Except LoadError (Cache × RpcEvent) :=
  if ids.isEmpty then
    let fields := columns.map Prod.fst
    let dg := remote.default_get name fields ctx
    .ok (defaultsCache fields dg, .defaultGetCall name fields)
  else
    let rows := remote.read name ids (basicFields columns) ctx
    let fetched := (rows.map Row.id).toFinset
    let missing := ids.toFinset \ fetched
    if missing = ∅ then
      .ok (rowsCache rows, .readCall name ids (basicFields columns))
    else
      .error (.recordNotFound name missing)

/-- The non-iterated branch of `Model._browse`: allocate fresh `_values` and
`_values_to_write` objects, attach `from_record`, and run `_init_values`. -/
def browseFresh (cls : ModelCls) (remote : Remote) (h : Heap) (env : Env)
    (nids : List Nat) (from_record : Option ParentRef) :
    Except LoadError (Recordset × Heap × List RpcEvent) :=
  match _init_values cls.name cls.columns nids remote env.ctx with
  | .error e => .error e
  | .ok (cache, ev) =>
      .ok ({ cls := cls, envLocal := some env, fromRecord := from_record,
             ids := nids, valuesRef := h.next, writesRef := h.next + 1 },
           { caches := fun n => if n = h.next then cache else h.caches n,
             writes := fun n => if n = h.next + 1 then emptyWBuf
                                else h.writes n,
             next := h.next + 2 },
           [ev])

/-- `Model._browse` (models.py lines 206-234).  When `iterated` is a truthy
recordset, the new recordset shares its `_values`/`_values_to_write`
objects and no RPC happens; otherwise fresh storage is allocated,
`_from_record` is attached and `_init_values` runs.  Note that `if
iterated:` is a Python truthiness test, so an *empty* origin recordset takes
the fresh branch. -/
def _browse (cls : ModelCls) (remote : Remote) (h : Heap) (env : Env)
    (idsIn : NatIds) (from_record : Option ParentRef)
    (iterated : Option Recordset) :
    Except LoadError (Recordset × Heap × List RpcEvent) :=
  let nids := normalizeNatIds idsIn
  match iterated with
  | some it =>
      if it.truthy then
        .ok ({ cls := cls, envLocal := some env, fromRecord := none,
               ids := nids, valuesRef := it.valuesRef,
               writesRef := it.writesRef }, h, [])
      else browseFresh cls remote h env nids from_record
  | none => browseFresh cls remote h env nids from_record

/-- `Model.browse`: `cls._browse(cls.env, ids)`. -/
def browse (cls : ModelCls) (remote : Remote) (h : Heap) (ids : NatIds) :
    Except LoadError (Recordset × Heap × List RpcEvent) :=
  _browse cls remote h cls.env ids none none

/-- `Model.__getitem__` with an integer key: `self._browse(self.env,
self._ids[key], iterated=self)`; an out-of-range key is an `IndexError`
(`none`).  Python negative indices count from the end. -/
def pyIndex (l : List Nat) (i : Int) : Option Nat :=
  let j : Int := if i < 0 then i + l.length else i
  if 0 ≤ j ∧ j < l.length then l.get? j.toNat else none

def getitemInt (remote : Remote) (h : Heap) (self : Recordset) (i : Int) :
    Option (Except LoadError (Recordset × Heap × List RpcEvent)) :=
  match pyIndex self.ids i with
  | none => none
  | some id_ => some (_browse self.cls remote h self.env (.scalar id_)
      none (some self))

/-- A step-less Python slice `l[start:stop]` with the usual clamping. -/
def pySlice (l : List Nat) (start stop : Int) : List Nat :=
  let n : Int := l.length
  let s : Int := if start < 0 then max 0 (start + n) else min start n
  let e : Int := if stop < 0 then max 0 (stop + n) else min stop n
  (l.drop s.toNat).take (e - s).toNat

/-- `Model.__getitem__` with a slice key: `self._browse(self.env,
self._ids[key], iterated=self)`. -/
def getitemSlice (remote : Remote) (h : Heap) (self : Recordset)
    (start stop : Int) :
    Except LoadError (Recordset × Heap × List RpcEvent) :=
  _browse self.cls remote h self.env (.list (pySlice self.ids start stop))
    none (some self)

/-- `Model.__iter__`: `for id_ in self._ids: yield self._browse(self.env,
id_, iterated=self)`. -/
def iterViews (remote : Remote) (h : Heap) (self : Recordset) :
    List (Except LoadError (Recordset × Heap × List RpcEvent)) :=
  self.ids.map (fun i => _browse self.cls remote h self.env (.scalar i)
    none (some self))

/-- Project the recordset out of a `_browse`-style result. -/
def resultRec : Except LoadError (Recordset × Heap × List RpcEvent) →
    Option Recordset
  | .ok (r, _, _) => some r
  | .error _ => none

/-- Project the issued RPC calls out of a `_browse`-style result. -/
def resultEvents : Except LoadError (Recordset × Heap × List RpcEvent) →
    Option (List RpcEvent)
  | .ok (_, _, evs) => some evs
  | .error _ => none

/-- `Model.with_env` (class level): fabricate a new class object sharing the
name and catalog, rebound to `env`.  `freshTok` is the identity of the newly
fabricated class object. -/
def with_env (cls : ModelCls) (freshTok : Nat) (env : Env) : ModelCls :=
  { cls with token := freshTok, env := env }

/-- `Model.with_context` (class level, models.py lines 269-311):
`context = dict(args[0] if args else cls.env.context, **kwargs)` then
`cls.with_env(cls.env(context=context))`. -/
def with_context (cls : ModelCls) (freshTok : Nat) (args : Option Ctx)
    (kwargs : Ctx) : ModelCls :=
  let context := dictMerge (match args with
    | some a => a
    | none => cls.env.ctx) kwargs
  with_env cls freshTok (Env.withCtx cls.env context)

/-- `Model._with_env` (recordset level): `self._browse(env, self._ids)` —
a reload with fresh storage under the new environment. -/
def _with_env (self : Recordset) (remote : Remote) (h : Heap) (env : Env) :
    Except LoadError (Recordset × Heap × List RpcEvent) :=
  _browse self.cls remote h env (.list self.ids) none none

/-- `Model._with_context` (recordset level, models.py lines 313-316):
`context = dict(args[0] if args else self.env.context, **kwargs)` then
`self.with_env(self.env(context=context))`. -/
def _with_context (self : Recordset) (remote : Remote) (h : Heap)
    (args : Option Ctx) (kwargs : Ctx) :
    Except LoadError (Recordset × Heap × List RpcEvent) :=
  let context := dictMerge (match args with
    | some a => a
    | none => self.env.ctx) kwargs
  _with_env self remote h (Env.withCtx self.env context)

/-- `method.startswith('_')`: whether the first character of the name is an
underscore (kernel-computable embedding of the string test). -/
def startsWithUnderscore (s : String) : Bool :=
  s.data.head? == some (Char.ofNat 95)

/-- The ambient `_odoo.config` flags read by the dispatcher. -/
structure OdooConfig where
  auto_context : Bool
deriving DecidableEq

/-- A keyword-argument value of a dispatched RPC call: either a context map
(as injected by auto-context) or some other opaque value. -/
inductive KwVal
  | ctxVal (c : Ctx)
  | other (n : Nat)
deriving DecidableEq

/-- The keyword arguments of a dispatched call (a Python dict). -/
abbrev Kwargs := List (String × KwVal)

/-- A positional argument of a dispatched call: the injected identifier list
or some other opaque value. -/
inductive PyArgV
  | idList (ids : List Nat)
  | other (n : Nat)
deriving DecidableEq

/-- The invocation handed to `self._odoo.execute_kw(model, method, args,
kwargs)` by a dynamically dispatched method. -/
structure RpcCall where
  model : String
  method : String
  args : List PyArgV
  kwargs : Kwargs
deriving DecidableEq

/-- `Model.__getattr__` (instance level, models.py lines 374-399): names with
a leading underscore are not dispatched (`none`); otherwise the returned
`rpc_method`, applied to `(args, kwargs)`, prepends `self.ids` as first
positional argument, injects `context` when `auto_context` is set and the
caller gave none, and calls `execute_kw`. -/
def modelGetattrCall (cfg : OdooConfig) (self : Recordset) (method : String)
    (args : List PyArgV) (kwargs : Kwargs) : Option RpcCall :=
  if startsWithUnderscore method then none
  else
    let args2 := PyArgV.idList self.ids :: args
    let kwargs2 :=
      if cfg.auto_context ∧ (dictGet kwargs "context").isNone then
        dictSet kwargs "context" (.ctxVal self.env.ctx)
      else kwargs
    some { model := self.cls.name, method := method, args := args2,
           kwargs := kwargs2 }

/-- `MetaModel.__getattr__` (class level, models.py lines 50-62): same
dispatch without any identifier list prepended. -/
def metaGetattrCall (cfg : OdooConfig) (cls : ModelCls) (method : String)
    (args : List PyArgV) (kwargs : Kwargs) : Option RpcCall :=
  if startsWithUnderscore method then none
  else
    let kwargs2 :=
      if cfg.auto_context ∧ (dictGet kwargs "context").isNone then
        dictSet kwargs "context" (.ctxVal cls.env.ctx)
      else kwargs
    some { model := cls.name, method := method, args := args,
           kwargs := kwargs2 }

/-- An arbitrary Python value compared against a recordset.  A non-recordset
value carries the identity of its (non-`Model`) class, which is never the
class of a recordset — hence the disjoint-sum class key below. -/
inductive PyValue
  | record (r : Recordset)
  | nonRec (cls : Nat)
deriving DecidableEq

/-- `Model.__eq__`: `other.__class__ == self.__class__ and self.id ==
other.id`.  For a non-recordset operand the class test is false and the
`and` short-circuits, so `.id` is never accessed. -/
def pyEq (self : Recordset) (other : PyValue) : Bool :=
  match other with
  | .record o => self.cls == o.cls && self.id == o.id
  | .nonRec _ => false

/-- `Model.__ne__`: `other.__class__ != self.__class__ or self.id !=
other.id`; for a non-recordset operand the class test is already true. -/
def pyNe (self : Recordset) (other : PyValue) : Bool :=
  match other with
  | .record o => self.cls != o.cls || self.id != o.id
  | .nonRec _ => true

/-- One step of the `__iadd__` loop (models.py lines 452-456): for one target
identifier, drop a pending unlink `(3, id)` if present, then append a link
`(4, id)` unless already present. -/
def iaddStep (vs : CmdList) (i : Nat) : CmdList :=
  let vs1 := if (3, i) ∈ vs then vs.erase (3, i) else vs
  if (4, i) ∈ vs1 then vs1 else vs1 ++ [(4, i)]

/-- The `__iadd__` loop over all target identifiers (the result of
`fields.records2ids(records)`; fields.py is not in src/, the external
record-to-identifier mapping is modelled by taking the id list directly). -/
def iaddCmds (vs : CmdList) (ids : List Nat) : CmdList :=
  ids.foldl iaddStep vs

/-- One step of the `__isub__` loop (models.py lines 474-478): drop a pending
link `(4, id)` if present, then append an unlink `(3, id)` unless present. -/
def isubStep (vs : CmdList) (i : Nat) : CmdList :=
  let vs1 := if (4, i) ∈ vs then vs.erase (4, i) else vs
  if (3, i) ∈ vs1 then vs1 else vs1 ++ [(3, i)]

/-- The `__isub__` loop over all target identifiers. -/
def isubCmds (vs : CmdList) (ids : List Nat) : CmdList :=
  ids.foldl isubStep vs

/-- The `IncrementalRecords` wrapper returned by `__iadd__`. -/
structure IncrementalRecords where
  tuples : CmdList
deriving DecidableEq

/-- `Model.__iadd__` (models.py lines 437-457): fail with `InternalError`
without a parent back-reference; otherwise read the parent's pending command
list for the field (empty when absent), run the accumulator loop and wrap
the result. -/
def iadd (h : Heap) (self : Recordset) (recIds : List Nat) :
    Except PyErr IncrementalRecords :=
  match self.fromRecord with
  | none => .error (.internalError "No parent record to update")
  | some p =>
      let values := ((h.writes p.writesRef p.fieldName p.parentId).getD [])
      .ok ⟨iaddCmds values recIds⟩

/-- `Model.__isub__` (models.py lines 459-479): as `__iadd__` with link and
unlink swapped; returns the bare command list. -/
def isub (h : Heap) (self : Recordset) (recIds : List Nat) :
    Except PyErr CmdList :=
  match self.fromRecord with
  | none => .error (.internalError "No parent record to update")
  | some p =>
      let values := ((h.writes p.writesRef p.fieldName p.parentId).getD [])
      .ok (isubCmds values recIds)

/-- Modelled from the spec: the field-descriptor write path (odoorpc/fields.py
is not in src/) installs an accumulated command list into the parent's
pending-write buffer under the field name and the parent's id. -/
def installPending (h : Heap) (p : ParentRef) (cmds : CmdList) : Heap :=
  { h with writes := fun n =>
      if n = p.writesRef then
        fun f k => if f = p.fieldName ∧ k = p.parentId then some cmds
                   else h.writes n f k
      else h.writes n }

/-- No identifier has both an unlink `(3, i)` and a link `(4, i)` command. -/
def noConflict (vs : CmdList) : Prop :=
  ∀ i : Nat, ¬((3, i) ∈ vs ∧ (4, i) ∈ vs)

/-- A sequence of `+=` / `-=` edits on a child recordset. -/
inductive AccOp
  | add (ids : List Nat)
  | remove (ids : List Nat)

/-- Apply a sequence of accumulator edits to a pending command list. -/
def applyOps (vs : CmdList) : List AccOp → CmdList
  | [] => vs
  | .add l :: rest => applyOps (iaddCmds vs l) rest
  | .remove l :: rest => applyOps (isubCmds vs l) rest

/-! Concrete fixtures used by witnesses and counterexamples. -/

/-- A concrete partner model class. -/
def cls0 : ModelCls :=
  { token := 0, name := "res.partner",
    columns := [("name", false), ("child_ids", true)],
    env := { ctx := [("tz", 1)] } }

/-- A concrete user model class (a different entity). -/
def cls1 : ModelCls :=
  { token := 1, name := "res.users", columns := [("name", false)],
    env := { ctx := [] } }

/-- A remote side that resolves every requested id. -/
def remoteAll : Remote :=
  { read := fun _ ids flds _ =>
      ids.map (fun i =>
        ⟨i, flds.map (fun f => (f, PyVal.vInt (Int.ofNat i)))⟩),
    default_get := fun _ _ _ => fun f =>
      if f = "name" then some (.vStr "default") else none }

/-- A remote side that only resolves id 1. -/
def remoteOnly1 : Remote :=
  { read := fun _ ids _ _ =>
      (ids.filter (fun i => i == 1)).map (fun i => ⟨i, []⟩),
    default_get := fun _ _ _ => fun _ => none }

/-- An initial heap with unused references 0 and 1 reserved for fixture
recordsets. -/
def heap0 : Heap :=
  { caches := fun _ => emptyCache, writes := fun _ => emptyWBuf, next := 5 }

/-- A concrete two-record recordset whose storage lives at references 0/1. -/
def rsA : Recordset :=
  { cls := cls0, envLocal := none, fromRecord := none, ids := [7, 8],
    valuesRef := 0, writesRef := 1 }

/-- A concrete empty recordset (as produced by browsing `[]`). -/
def rsEmpty : Recordset :=
  { cls := cls0, envLocal := none, fromRecord := none, ids := [],
    valuesRef := 0, writesRef := 1 }

/-- A concrete parent back-reference into heap reference 1. -/
def pref0 : ParentRef :=
  { parentId := some 9, fieldName := "child_ids", writesRef := 1 }

/-- A concrete child recordset carrying the parent back-reference. -/
def rsChild : Recordset :=
  { cls := cls0, envLocal := none, fromRecord := some pref0, ids := [5],
    valuesRef := 2, writesRef := 3 }

/-- An eighth fixture: a recordset of the other entity sharing id 7. -/
def rsU : Recordset :=
  { cls := cls1, envLocal := none, fromRecord := none, ids := [7, 9],
    valuesRef := 4, writesRef := 4 }

/-! Helper lemmas about the dict operations. -/

theorem dictGet_map_upd {α : Type} (d : List (String × α)) (k : String)
    (v : α) (h : k ∈ d.map Prod.fst) :
    dictGet (d.map (fun p => if p.1 = k then (k, v) else p)) k = some v := by
  induction d with
  | nil => simp at h
  | cons a d ih =>
      simp only [List.map_cons, List.mem_cons] at h
      by_cases hk : a.1 = k
      · simp [dictGet, hk]
      · have hd : k ∈ d.map Prod.fst := by
          rcases h with h | h
          · exact absurd h.symm hk
          · exact h
        simp [dictGet, hk, ih hd]

theorem dictGet_map_upd_ne {α : Type} (d : List (String × α)) (k k2 : String)
    (v : α) (hne : k2 ≠ k) :
    dictGet (d.map (fun p => if p.1 = k then (k, v) else p)) k2 =
      dictGet d k2 := by
  induction d with
  | nil => simp [dictGet]
  | cons a d ih =>
      have hkk2 : k ≠ k2 := fun e => hne e.symm
      by_cases hk : a.1 = k
      · have h2 : a.1 ≠ k2 := by
          rw [hk]
          exact hkk2
        simp [dictGet, hk, h2, hkk2, ih]
      · by_cases h2 : a.1 = k2
        · simp [dictGet, hk, h2, hne]
        · simp [dictGet, hk, h2, ih]

theorem dictGet_append {α : Type} (d t : List (String × α)) (k : String) :
    dictGet (d ++ t) k = ((dictGet d k).orElse (fun _ => dictGet t k)) := by
  induction d with
  | nil => simp [dictGet]
  | cons a d ih =>
      by_cases hk : a.1 = k
      · simp [dictGet, hk]
      · simp [dictGet, hk, ih]

theorem dictGet_none_of_not_mem_keys {α : Type} (d : List (String × α))
    (k : String) (h : k ∉ d.map Prod.fst) : dictGet d k = none := by
  induction d with
  | nil => simp [dictGet]
  | cons a d ih =>
      simp only [List.map_cons, List.mem_cons] at h
      push_neg at h
      have h1 : a.1 ≠ k := fun e => h.1 e.symm
      simp [dictGet, h1, ih h.2]

theorem dictGet_dictSet_self {α : Type} (d : List (String × α)) (k : String)
    (v : α) : dictGet (dictSet d k v) k = some v := by
  unfold dictSet
  by_cases hmem : k ∈ d.map Prod.fst
  · simp only [hmem, if_true]
    exact dictGet_map_upd d k v hmem
  · simp only [hmem, if_false]
    rw [dictGet_append, dictGet_none_of_not_mem_keys d k hmem]
    simp [dictGet, Option.orElse]

theorem dictGet_dictSet_ne {α : Type} (d : List (String × α)) (k k2 : String)
    (v : α) (hne : k2 ≠ k) : dictGet (dictSet d k v) k2 = dictGet d k2 := by
  unfold dictSet
  by_cases hmem : k ∈ d.map Prod.fst
  · simp only [hmem, if_true]
    exact dictGet_map_upd_ne d k k2 v hne
  · simp only [hmem, if_false]
    rw [dictGet_append]
    have h1 : k ≠ k2 := fun e => hne e.symm
    cases hd : dictGet d k2 with
    | none => simp [hd, dictGet, h1, Option.orElse]
    | some w => simp [hd, dictGet, h1, Option.orElse]

theorem dictGet_dictMerge {α : Type} (base kvs : List (String × α))
    (k : String) (hnd : (kvs.map Prod.fst).Nodup) :
    dictGet (dictMerge base kvs) k =
      ((dictGet kvs k).orElse (fun _ => dictGet base k)) := by
  induction kvs generalizing base with
  | nil => simp [dictMerge, dictGet]
  | cons p rest ih =>
      simp only [List.map_cons, List.nodup_cons] at hnd
      have hstep : dictMerge base (p :: rest) =
          dictMerge (dictSet base p.1 p.2) rest := rfl
      rw [hstep, ih (dictSet base p.1 p.2) hnd.2]
      by_cases hk : k = p.1
      · subst hk
        have hrest : dictGet rest p.1 = none :=
          dictGet_none_of_not_mem_keys rest p.1 hnd.1
        simp [hrest, dictGet_dictSet_self, dictGet, Option.orElse]
      · have h1 : p.1 ≠ k := fun e => hk e.symm
        rw [dictGet_dictSet_ne base p.1 k p.2 hk]
        cases hr : dictGet rest k with
        | none => simp [hr, dictGet, h1, Option.orElse]
        | some w => simp [hr, dictGet, h1, Option.orElse]

/-! Helper lemmas about `_browse` and the loading routine. -/

theorem browseFresh_ok_shape (cls : ModelCls) (remote : Remote) (h : Heap)
    (env : Env) (nids : List Nat) (fr : Option ParentRef) (r : Recordset)
    (h2 : Heap) (evs : List RpcEvent)
    (he : browseFresh cls remote h env nids fr = .ok (r, h2, evs)) :
    r = { cls := cls, envLocal := some env, fromRecord := fr, ids := nids,
          valuesRef := h.next, writesRef := h.next + 1 } ∧
    h2.writes (h.next + 1) = emptyWBuf ∧ h2.next = h.next + 2 := by
  unfold browseFresh at he
  cases hinit : _init_values cls.name cls.columns nids remote env.ctx with
  | error e =>
      rw [hinit] at he
      exact absurd he (by simp)
  | ok ce =>
      rw [hinit] at he
      obtain ⟨cache, ev⟩ := ce
      simp only [Except.ok.injEq, Prod.mk.injEq] at he
      obtain ⟨hr, hh, hev⟩ := he
      refine ⟨hr.symm, ?_, ?_⟩
      · rw [← hh]
        simp
      · rw [← hh]

theorem browse_like_ok_shared_or_fresh (cls : ModelCls) (remote : Remote)
    (h : Heap) (env : Env) (idsIn : NatIds) (it : Option Recordset)
    (r : Recordset) (h2 : Heap) (evs : List RpcEvent)
    (he : _browse cls remote h env idsIn none it = .ok (r, h2, evs)) :
    r.fromRecord = none ∧ r.envLocal = some env := by
  unfold _browse at he
  cases it with
  | none =>
      have hs := browseFresh_ok_shape cls remote h env
        (normalizeNatIds idsIn) none r h2 evs he
      rw [hs.1]
      exact ⟨rfl, rfl⟩
  | some origin =>
      by_cases ht : origin.truthy = true
      · simp only [ht, if_true] at he
        simp only [Except.ok.injEq, Prod.mk.injEq] at he
        rw [← he.1]
        exact ⟨rfl, rfl⟩
      · simp only [Bool.not_eq_true] at ht
        simp only [ht, Bool.false_eq_true, if_false] at he
        have hs := browseFresh_ok_shape cls remote h env
          (normalizeNatIds idsIn) none r h2 evs he
        rw [hs.1]
        exact ⟨rfl, rfl⟩

theorem _browse_shared_of_truthy (cls : ModelCls) (remote : Remote) (h : Heap)
    (env : Env) (idsIn : NatIds) (fr : Option ParentRef) (origin : Recordset)
    (ht : origin.truthy = true) :
    _browse cls remote h env idsIn fr (some origin) =
      .ok ({ cls := cls, envLocal := some env, fromRecord := none,
             ids := normalizeNatIds idsIn, valuesRef := origin.valuesRef,
             writesRef := origin.writesRef }, h, []) := by
  unfold _browse
  simp only [ht, if_true]

/-! Helper lemmas about the relational-edit accumulator. -/

theorem iaddStep_inv (vs : CmdList) (i : Nat) (hn : vs.Nodup)
    (hc : noConflict vs) :
    (iaddStep vs i).Nodup ∧ noConflict (iaddStep vs i) := by
  unfold iaddStep
  have hbase : ∀ vs1 : CmdList, vs1.Nodup → noConflict vs1 →
      (3, i) ∉ vs1 →
      (if (4, i) ∈ vs1 then vs1 else vs1 ++ [(4, i)]).Nodup ∧
      noConflict (if (4, i) ∈ vs1 then vs1 else vs1 ++ [(4, i)]) := by
    intro vs1 hn1 hc1 h3out
    by_cases h4 : (4, i) ∈ vs1
    · simp only [h4, if_true]
      exact ⟨hn1, hc1⟩
    · simp only [h4, if_false]
      constructor
      · refine List.Nodup.append hn1 (List.nodup_singleton _) ?_
        intro a ha hb
        rw [List.mem_singleton] at hb
        subst hb
        exact h4 ha
      · intro j hj
        obtain ⟨hj3, hj4⟩ := hj
        rw [List.mem_append, List.mem_singleton] at hj3 hj4
        rcases hj3 with hj3 | hj3
        · rcases hj4 with hj4 | hj4
          · exact hc1 j ⟨hj3, hj4⟩
          · have hji : j = i := by
              simpa using hj4
            subst hji
            exact h3out hj3
        · simp at hj3
  by_cases h3 : (3, i) ∈ vs
  · simp only [h3, if_true]
    refine hbase (vs.erase (3, i)) (hn.erase _) ?_ ?_
    · intro j hj
      obtain ⟨hj3, hj4⟩ := hj
      exact hc j ⟨List.mem_of_mem_erase hj3, List.mem_of_mem_erase hj4⟩
    · intro hmem
      rw [hn.mem_erase_iff] at hmem
      exact hmem.1 rfl
  · simp only [h3, if_false]
    exact hbase vs hn hc h3

theorem isubStep_inv (vs : CmdList) (i : Nat) (hn : vs.Nodup)
    (hc : noConflict vs) :
    (isubStep vs i).Nodup ∧ noConflict (isubStep vs i) := by
  unfold isubStep
  have hbase : ∀ vs1 : CmdList, vs1.Nodup → noConflict vs1 →
      (4, i) ∉ vs1 →
      (if (3, i) ∈ vs1 then vs1 else vs1 ++ [(3, i)]).Nodup ∧
      noConflict (if (3, i) ∈ vs1 then vs1 else vs1 ++ [(3, i)]) := by
    intro vs1 hn1 hc1 h4out
    by_cases h3 : (3, i) ∈ vs1
    · simp only [h3, if_true]
      exact ⟨hn1, hc1⟩
    · simp only [h3, if_false]
      constructor
      · refine List.Nodup.append hn1 (List.nodup_singleton _) ?_
        intro a ha hb
        rw [List.mem_singleton] at hb
        subst hb
        exact h3 ha
      · intro j hj
        obtain ⟨hj3, hj4⟩ := hj
        rw [List.mem_append, List.mem_singleton] at hj3 hj4
        rcases hj4 with hj4 | hj4
        · rcases hj3 with hj3 | hj3
          · exact hc1 j ⟨hj3, hj4⟩
          · have hji : j = i := by
              simpa using hj3
            subst hji
            exact h4out hj4
        · simp at hj4
  by_cases h4 : (4, i) ∈ vs
  · simp only [h4, if_true]
    refine hbase (vs.erase (4, i)) (hn.erase _) ?_ ?_
    · intro j hj
      obtain ⟨hj3, hj4⟩ := hj
      exact hc j ⟨List.mem_of_mem_erase hj3, List.mem_of_mem_erase hj4⟩
    · intro hmem
      rw [hn.mem_erase_iff] at hmem
      exact hmem.1 rfl
  · simp only [h4, if_false]
    exact hbase vs hn hc h4

theorem iaddCmds_inv (ids : List Nat) (vs : CmdList) (hn : vs.Nodup)
    (hc : noConflict vs) :
    (iaddCmds vs ids).Nodup ∧ noConflict (iaddCmds vs ids) := by
  induction ids generalizing vs with
  | nil => exact ⟨hn, hc⟩
  | cons i ids ih =>
      have hstep := iaddStep_inv vs i hn hc
      exact ih (iaddStep vs i) hstep.1 hstep.2

theorem isubCmds_inv (ids : List Nat) (vs : CmdList) (hn : vs.Nodup)
    (hc : noConflict vs) :
    (isubCmds vs ids).Nodup ∧ noConflict (isubCmds vs ids) := by
  induction ids generalizing vs with
  | nil => exact ⟨hn, hc⟩
  | cons i ids ih =>
      have hstep := isubStep_inv vs i hn hc
      exact ih (isubStep vs i) hstep.1 hstep.2

theorem applyOps_inv (ops : List AccOp) (vs : CmdList) (hn : vs.Nodup)
    (hc : noConflict vs) :
    (applyOps vs ops).Nodup ∧ noConflict (applyOps vs ops) := by
  induction ops generalizing vs with
  | nil => exact ⟨hn, hc⟩
  | cons op rest ih =>
      cases op with
      | add l =>
          have hstep := iaddCmds_inv l vs hn hc
          exact ih (iaddCmds vs l) hstep.1 hstep.2
      | remove l =>
          have hstep := isubCmds_inv l vs hn hc
          exact ih (isubCmds vs l) hstep.1 hstep.2

theorem iaddCmds_empty_single (i : Nat) : iaddCmds [] [i] = [(4, i)] := by
  simp [iaddCmds, iaddStep]

theorem isubCmds_empty_single (i : Nat) : isubCmds [] [i] = [(3, i)] := by
  simp [isubCmds, isubStep]

theorem isubCmds_link_single (i : Nat) : isubCmds [(4, i)] [i] = [(3, i)] := by
  simp [isubCmds, isubStep]

theorem iaddCmds_unlink_single (i : Nat) :
    iaddCmds [(3, i)] [i] = [(4, i)] := by
  simp [iaddCmds, iaddStep]

/-! Claim theorems. -/

/-- C7: the identifier normalizer maps every empty/false-ish input to the
empty sequence, a non-falsy scalar of integer or text/byte-string type to
the one-element sequence containing that scalar, and any list to itself
(order and duplicates preserved); it is total over these inputs by
construction. -/
theorem normalize_ids_cases :
    (∀ x : IdsInput, pyFalsy x = true → _normalize_ids x = []) ∧
    (∀ n : Int, n ≠ 0 → _normalize_ids (.int n) = [.intId n]) ∧
    (∀ s : String, s ≠ "" → _normalize_ids (.str s) = [.strId s]) ∧
    (∀ b : List Nat, b ≠ [] → _normalize_ids (.bytes b) = [.bytesId b]) ∧
    (∀ l : List PyId, _normalize_ids (.list l) = l) := by
  refine ⟨?_, ?_, ?_, ?_, ?_⟩
  · intro x hx
    simp [_normalize_ids, hx]
  · intro n hn
    simp [_normalize_ids, pyFalsy, isNormalizedType, hn]
  · intro s hs
    simp [_normalize_ids, pyFalsy, isNormalizedType, hs]
  · intro b hb
    cases b with
    | nil => exact absurd rfl hb
    | cons a t => simp [_normalize_ids, pyFalsy, isNormalizedType]
  · intro l
    cases l with
    | nil => simp [_normalize_ids, pyFalsy]
    | cons a t => simp [_normalize_ids, pyFalsy, isNormalizedType]

theorem normalize_ids_cases_witness :
    ((5 : Int) ≠ 0 ∧ _normalize_ids (.int 5) = [.intId 5]) ∧
    (pyFalsy .none_ = true ∧ _normalize_ids .none_ = []) :=
  ⟨⟨by decide, normalize_ids_cases.2.1 5 (by decide)⟩,
   ⟨rfl, normalize_ids_cases.1 .none_ rfl⟩⟩

/-- C10: `__ne__` is the pointwise boolean negation of `__eq__` for every
operand, and both comparisons are total: a value of a non-recordset class
always compares unequal without any error (the embedding functions are
total). -/
theorem ne_negates_eq_total (a : Recordset) (v : PyValue) :
    pyNe a v = !pyEq a v ∧
    (∀ c : Nat, pyEq a (.nonRec c) = false ∧ pyNe a (.nonRec c) = true) := by
  constructor
  · cases v with
    | record o => simp [pyEq, pyNe, bne, Bool.not_and]
    | nonRec c => simp [pyEq, pyNe]
  · intro c
    exact ⟨rfl, rfl⟩

/-- C4: recordset equality holds iff both operands are of the same bound
model class and have the same primary identifier (`ids` head, or absent for
both); it ignores the remaining identifiers, and recordsets of model
classes with different entity names are never equal. -/
theorem recordset_eq_iff (a b : Recordset) :
    (pyEq a (.record b) = true ↔ a.cls = b.cls ∧ a.id = b.id) ∧
    (a.cls.name ≠ b.cls.name → pyEq a (.record b) = false) ∧
    (∀ c : Recordset, b.cls = c.cls → b.ids.head? = c.ids.head? →
       pyEq a (.record b) = pyEq a (.record c)) := by
  have hiff : pyEq a (.record b) = true ↔ a.cls = b.cls ∧ a.id = b.id := by
    simp [pyEq, Bool.and_eq_true, beq_iff_eq]
  refine ⟨hiff, ?_, ?_⟩
  · intro hname
    rw [Bool.eq_false_iff]
    intro he
    exact hname (congrArg ModelCls.name (hiff.mp he).1)
  · intro c h1 h2
    simp [pyEq, Recordset.id, h1, h2]

theorem recordset_eq_iff_witness :
    pyEq rsA (.record rsU) = false ∧ pyEq rsA (.record rsA) = true :=
  ⟨(recordset_eq_iff rsA rsU).2.1 (by decide),
   ((recordset_eq_iff rsA rsA).1).mpr ⟨rfl, rfl⟩⟩

/-- C2: on a child recordset with a parent back-reference and an empty
pending command list, add-then-remove of an identifier leaves exactly the
unlink command `(3, i)`, remove-then-add leaves exactly the link command
`(4, i)`, and any sequence of accumulator edits starting from the empty
list never produces both a `(3, i)` and a `(4, i)` for the same
identifier. -/
theorem relational_accumulator_cancellation
    (h : Heap) (self : Recordset) (p : ParentRef) (i : Nat)
    (hfr : self.fromRecord = some p)
    (hempty : (h.writes p.writesRef p.fieldName p.parentId).getD [] = []) :
    (iadd h self [i] = .ok ⟨[(4, i)]⟩ ∧
     isub (installPending h p [(4, i)]) self [i] = .ok [(3, i)]) ∧
    (isub h self [i] = .ok [(3, i)] ∧
     iadd (installPending h p [(3, i)]) self [i] = .ok ⟨[(4, i)]⟩) ∧
    (∀ ops : List AccOp, noConflict (applyOps [] ops)) ∧
    (∀ (vs : CmdList) (l : List Nat), vs.Nodup → noConflict vs →
       noConflict (iaddCmds vs l) ∧ noConflict (isubCmds vs l)) := by
  have hinstall : ∀ cmds : CmdList,
      ((installPending h p cmds).writes p.writesRef p.fieldName
        p.parentId).getD [] = cmds := by
    intro cmds
    simp [installPending]
  refine ⟨⟨?_, ?_⟩, ⟨?_, ?_⟩, ?_, ?_⟩
  · simp [iadd, hfr, hempty, iaddCmds_empty_single]
  · simp [isub, hfr, hinstall, isubCmds_link_single]
  · simp [isub, hfr, hempty, isubCmds_empty_single]
  · simp [iadd, hfr, hinstall, iaddCmds_unlink_single]
  · intro ops
    exact (applyOps_inv ops [] List.nodup_nil
      (fun j hj => absurd hj.1 (List.not_mem_nil _))).2
  · intro vs l hn hc
    exact ⟨(iaddCmds_inv l vs hn hc).2, (isubCmds_inv l vs hn hc).2⟩

theorem relational_accumulator_cancellation_witness :
    rsChild.fromRecord = some pref0 ∧
    (heap0.writes pref0.writesRef pref0.fieldName pref0.parentId).getD []
      = [] ∧
    iadd heap0 rsChild [5] = .ok ⟨[(4, 5)]⟩ :=
  ⟨rfl, rfl,
   ((relational_accumulator_cancellation heap0 rsChild pref0 5 rfl
       rfl).1).1⟩

/-- C3: the dynamic dispatcher, on any non-underscore method name, builds an
`execute_kw` invocation that prepends the recordset's current `ids` as the
first positional argument at instance level (and no identifier list at
class level), and injects the environment's context as the `context`
keyword when `auto_context` is enabled and no explicit context was given. -/
theorem dynamic_dispatch_shape
    (cfg : OdooConfig) (self : Recordset) (cls : ModelCls) (method : String)
    (args : List PyArgV) (kwargs : Kwargs)
    (hm : startsWithUnderscore method = false) :
    ((modelGetattrCall cfg self method args kwargs).map RpcCall.args =
        some (PyArgV.idList self.ids :: args)) ∧
    ((modelGetattrCall cfg self method args kwargs).map RpcCall.model =
        some self.cls.name) ∧
    (cfg.auto_context = true → dictGet kwargs "context" = none →
      (modelGetattrCall cfg self method args kwargs).map
          (fun c => dictGet c.kwargs "context") =
        some (some (KwVal.ctxVal self.env.ctx))) ∧
    ((metaGetattrCall cfg cls method args kwargs).map RpcCall.args =
        some args) ∧
    (cfg.auto_context = true → dictGet kwargs "context" = none →
      (metaGetattrCall cfg cls method args kwargs).map
          (fun c => dictGet c.kwargs "context") =
        some (some (KwVal.ctxVal cls.env.ctx))) := by
  refine ⟨?_, ?_, ?_, ?_, ?_⟩
  · simp [modelGetattrCall, hm]
  · simp [modelGetattrCall, hm]
  · intro ha hk
    simp [modelGetattrCall, hm, ha, hk, dictGet_dictSet_self]
  · simp [metaGetattrCall, hm]
  · intro ha hk
    simp [metaGetattrCall, hm, ha, hk, dictGet_dictSet_self]

theorem dynamic_dispatch_shape_witness :
    (startsWithUnderscore "name_get" = false) ∧
    ((modelGetattrCall ⟨true⟩ rsA "name_get" [] []).map RpcCall.args =
      some [PyArgV.idList [7, 8]]) ∧
    ((modelGetattrCall ⟨true⟩ rsA "name_get" [] []).map
        (fun c => dictGet c.kwargs "context") =
      some (some (KwVal.ctxVal [("tz", 1)]))) :=
  ⟨by decide,
   (dynamic_dispatch_shape ⟨true⟩ rsA cls0 "name_get" [] [] (by decide)).1,
   (dynamic_dispatch_shape ⟨true⟩ rsA cls0 "name_get" [] [] (by decide)).2.2.1
     rfl rfl⟩

theorem truthy_of_ne_nil (self : Recordset) (hne : self.ids ≠ []) :
    self.truthy = true := by
  unfold Recordset.truthy
  cases hself : self.ids with
  | nil => exact absurd hself hne
  | cons a t => rfl

theorem pyIndex_zero (l : List Nat) (hl : l ≠ []) : pyIndex l 0 = l.head? := by
  cases l with
  | nil => exact absurd rfl hl
  | cons a t => simp [pyIndex, List.get?]

/-- C1: browsing an identifier list of which at least one identifier is not
resolved by the remote bulk read fails with the RecordNotFound condition
naming the entity and exactly the set of unresolved identifiers; no
recordset is produced. -/
theorem browse_missing_ids_fails
    (cls : ModelCls) (remote : Remote) (h : Heap) (idsList : List Nat)
    (hmiss : ∃ i ∈ idsList,
      i ∉ (remote.read cls.name idsList (basicFields cls.columns)
            cls.env.ctx).map Row.id) :
    browse cls remote h (.list idsList) =
      .error (.recordNotFound cls.name
        (idsList.toFinset \
          ((remote.read cls.name idsList (basicFields cls.columns)
              cls.env.ctx).map Row.id).toFinset)) := by
  obtain ⟨i, hi, hni⟩ := hmiss
  have hne : idsList ≠ [] := by
    intro h0
    rw [h0] at hi
    exact (List.not_mem_nil i) hi
  have hnorm : normalizeNatIds (.list idsList) = idsList := by
    cases idsList with
    | nil => exact absurd rfl hne
    | cons a t => simp [normalizeNatIds]
  have hie : idsList.isEmpty = false := by
    cases idsList with
    | nil => exact absurd rfl hne
    | cons a t => rfl
  have hmem : i ∈ idsList.toFinset \
      ((remote.read cls.name idsList (basicFields cls.columns)
        cls.env.ctx).map Row.id).toFinset :=
    Finset.mem_sdiff.mpr ⟨List.mem_toFinset.mpr hi,
      fun hf => hni (List.mem_toFinset.mp hf)⟩
  have hne2 : idsList.toFinset \
      ((remote.read cls.name idsList (basicFields cls.columns)
        cls.env.ctx).map Row.id).toFinset ≠ ∅ :=
    Finset.ne_empty_of_mem hmem
  have hinit : _init_values cls.name cls.columns idsList remote cls.env.ctx =
      .error (.recordNotFound cls.name
        (idsList.toFinset \
          ((remote.read cls.name idsList (basicFields cls.columns)
              cls.env.ctx).map Row.id).toFinset)) := by
    unfold _init_values
    simp [hie, hne2]
  simp [browse, _browse, browseFresh, hnorm, hinit]

theorem browse_missing_ids_fails_witness :
    (∃ i ∈ ([1, 2] : List Nat), i ∉ (remoteOnly1.read cls0.name [1, 2]
        (basicFields cls0.columns) cls0.env.ctx).map Row.id) ∧
    browse cls0 remoteOnly1 heap0 (.list [1, 2]) =
      .error (.recordNotFound cls0.name
        (([1, 2] : List Nat).toFinset \
          ((remoteOnly1.read cls0.name [1, 2] (basicFields cls0.columns)
              cls0.env.ctx).map Row.id).toFinset)) :=
  ⟨by decide, browse_missing_ids_fails cls0 remoteOnly1 heap0 [1, 2]
    (by decide)⟩

/-- C8: browsing the empty identifier sequence yields a recordset with
`id = None` and `ids = []`, whose load issues the default-values RPC over
all catalog field names and stores each returned default (or the `False`
sentinel when absent) under the no-identifier cache key, without raising
RecordNotFound. -/
theorem browse_empty_defaults (cls : ModelCls) (remote : Remote) (h : Heap) :
    (browse cls remote h (.list []) =
      .ok ({ cls := cls, envLocal := some cls.env, fromRecord := none,
             ids := [], valuesRef := h.next, writesRef := h.next + 1 },
           { caches := fun n => if n = h.next then
                 defaultsCache (cls.columns.map Prod.fst)
                   (remote.default_get cls.name (cls.columns.map Prod.fst)
                     cls.env.ctx)
               else h.caches n,
             writes := fun n => if n = h.next + 1 then emptyWBuf
               else h.writes n,
             next := h.next + 2 },
           [.defaultGetCall cls.name (cls.columns.map Prod.fst)])) ∧
    (∀ r : Recordset, r ∈ resultRec (browse cls remote h (.list [])) →
       r.id = none ∧ r.ids = []) ∧
    (∀ f : String, f ∈ cls.columns.map Prod.fst →
       defaultsCache (cls.columns.map Prod.fst)
         (remote.default_get cls.name (cls.columns.map Prod.fst) cls.env.ctx)
         f none =
       some ((remote.default_get cls.name (cls.columns.map Prod.fst)
         cls.env.ctx f).getD PyVal.vFalse)) := by
  refine ⟨rfl, ?_, ?_⟩
  · intro r hr
    have hr2 := Option.mem_def.mp hr
    have hr3 := Option.some.inj hr2
    rw [← hr3]
    exact ⟨rfl, rfl⟩
  · intro f hf
    simp [defaultsCache, hf]

theorem browse_empty_defaults_witness :
    ("name" ∈ cls0.columns.map Prod.fst) ∧
    defaultsCache (cls0.columns.map Prod.fst)
      (remoteAll.default_get cls0.name (cls0.columns.map Prod.fst)
        cls0.env.ctx) "name" none =
      some ((remoteAll.default_get cls0.name (cls0.columns.map Prod.fst)
        cls0.env.ctx "name").getD PyVal.vFalse) :=
  ⟨by decide, (browse_empty_defaults cls0 remoteAll heap0).2.2 "name"
    (by decide)⟩

/-- C5: `with_context` merges the base context (the positional argument if
given, else the current environment's context) with the keyword overrides,
overrides winning on key collision; applying it twice with the same key is
last-write-wins; at recordset level the resulting recordset's environment
carries the same merged context. -/
theorem with_context_merge
    (cls : ModelCls) (t1 t2 : Nat) (args : Option Ctx) (kwargs : Ctx)
    (k key : String) (v1 v2 : Int)
    (hnd : (kwargs.map Prod.fst).Nodup) :
    (dictGet (with_context cls t1 args kwargs).env.ctx k =
      ((dictGet kwargs k).orElse
        (fun _ => dictGet (args.getD cls.env.ctx) k))) ∧
    (dictGet (with_context (with_context cls t1 none [(key, v1)]) t2 none
        [(key, v2)]).env.ctx key = some v2) ∧
    (∀ (self : Recordset) (remote : Remote) (h : Heap) (r : Recordset)
       (h2 : Heap) (evs : List RpcEvent),
       _with_context self remote h args kwargs = .ok (r, h2, evs) →
       r.env.ctx = dictMerge (args.getD self.env.ctx) kwargs) := by
  refine ⟨?_, ?_, ?_⟩
  · have hctx : (with_context cls t1 args kwargs).env.ctx =
        dictMerge (args.getD cls.env.ctx) kwargs := by
      cases args with
      | none => rfl
      | some a => rfl
    rw [hctx]
    exact dictGet_dictMerge _ kwargs k hnd
  · have h2 : (with_context (with_context cls t1 none [(key, v1)]) t2 none
        [(key, v2)]).env.ctx =
        dictSet (dictSet cls.env.ctx key v1) key v2 := rfl
    rw [h2]
    exact dictGet_dictSet_self _ key v2
  · intro self remote h r h2 evs he
    cases args with
    | none =>
        have hsh := browse_like_ok_shared_or_fresh self.cls remote h
          (Env.withCtx self.env (dictMerge self.env.ctx kwargs))
          (.list self.ids) none r h2 evs he
        have henv : r.env =
            Env.withCtx self.env (dictMerge self.env.ctx kwargs) := by
          unfold Recordset.env
          rw [hsh.2]
          rfl
        rw [henv]
        rfl
    | some a =>
        have hsh := browse_like_ok_shared_or_fresh self.cls remote h
          (Env.withCtx self.env (dictMerge a kwargs))
          (.list self.ids) none r h2 evs he
        have henv : r.env = Env.withCtx self.env (dictMerge a kwargs) := by
          unfold Recordset.env
          rw [hsh.2]
          rfl
        rw [henv]
        rfl

theorem with_context_merge_witness :
    ((([("a", (1 : Int))] : Ctx).map Prod.fst).Nodup) ∧
    dictGet (with_context (with_context cls0 1 none [("a", 1)]) 2 none
      [("a", 2)]).env.ctx "a" = some 2 :=
  ⟨by decide, (with_context_merge cls0 1 2 none [("a", 1)] "a" "a" 1 2
    (by decide)).2.1⟩

/-- C6 (amended): every recordset obtained by integer/slice indexing or by
iteration from a *truthy (non-empty)* origin shares the origin's cache and
pending-write storage and triggers no RPC; `rs[0]` coincides with the first
iterated element and is equal to it under `__eq__`; cache mutations through
the shared reference are observable through both views; `browse` instead
allocates fresh storage (with an empty pending-write buffer) before its
initial load.  The restriction to a truthy origin is forced: slicing an
*empty* origin takes the fresh-storage branch of `_browse` and triggers a
default-values load (see the counterexample). -/
theorem views_share_storage_amended
    (remote : Remote) (h : Heap) (self : Recordset) (hne : self.ids ≠ []) :
    (∀ start stop : Int,
      getitemSlice remote h self start stop =
        .ok ({ cls := self.cls, envLocal := some self.env, fromRecord := none,
               ids := normalizeNatIds (.list (pySlice self.ids start stop)),
               valuesRef := self.valuesRef, writesRef := self.writesRef },
             h, [])) ∧
    (∀ (i : Int) (id_ : Nat), pyIndex self.ids i = some id_ →
      getitemInt remote h self i =
        some (.ok ({ cls := self.cls, envLocal := some self.env,
                     fromRecord := none,
                     ids := normalizeNatIds (.scalar id_),
                     valuesRef := self.valuesRef,
                     writesRef := self.writesRef }, h, []))) ∧
    (iterViews remote h self = self.ids.map (fun i =>
        .ok ({ cls := self.cls, envLocal := some self.env, fromRecord := none,
               ids := normalizeNatIds (.scalar i),
               valuesRef := self.valuesRef, writesRef := self.writesRef },
             h, []))) ∧
    (getitemInt remote h self 0 = (iterViews remote h self).head?) ∧
    (∀ (v1 v2 : Recordset) (hh1 hh2 : Heap) (ev1 ev2 : List RpcEvent),
       (iterViews remote h self).head? = some (.ok (v1, hh1, ev1)) →
       getitemInt remote h self 0 = some (.ok (v2, hh2, ev2)) →
       pyEq v1 (.record v2) = true) ∧
    (∀ (start stop : Int) (v : Recordset) (hh : Heap) (ev : List RpcEvent),
       getitemSlice remote h self start stop = .ok (v, hh, ev) →
       ∀ (c : Cache) (f : String) (k : Option Nat),
         (h.setCacheAt self.valuesRef c).caches v.valuesRef f k = c f k ∧
         (h.setCacheAt v.valuesRef c).caches self.valuesRef f k = c f k) ∧
    (∀ (cls : ModelCls) (idsIn : NatIds) (r : Recordset) (h2 : Heap)
       (evs : List RpcEvent),
       browse cls remote h idsIn = .ok (r, h2, evs) →
       r.valuesRef = h.next ∧ r.writesRef = h.next + 1 ∧
       h2.writes (h.next + 1) = emptyWBuf ∧ h2.next = h.next + 2) := by
  have ht : self.truthy = true := truthy_of_ne_nil self hne
  have hslice : ∀ start stop : Int,
      getitemSlice remote h self start stop =
        .ok ({ cls := self.cls, envLocal := some self.env, fromRecord := none,
               ids := normalizeNatIds (.list (pySlice self.ids start stop)),
               valuesRef := self.valuesRef, writesRef := self.writesRef },
             h, []) := by
    intro start stop
    unfold getitemSlice
    exact _browse_shared_of_truthy self.cls remote h self.env _ none self ht
  have hint : ∀ (i : Int) (id_ : Nat), pyIndex self.ids i = some id_ →
      getitemInt remote h self i =
        some (.ok ({ cls := self.cls, envLocal := some self.env,
                     fromRecord := none,
                     ids := normalizeNatIds (.scalar id_),
                     valuesRef := self.valuesRef,
                     writesRef := self.writesRef }, h, [])) := by
    intro i id_ hpi
    unfold getitemInt
    rw [hpi]
    exact congrArg some (_browse_shared_of_truthy self.cls remote h self.env
      (.scalar id_) none self ht)
  have hiter : iterViews remote h self = self.ids.map (fun i =>
      .ok ({ cls := self.cls, envLocal := some self.env, fromRecord := none,
             ids := normalizeNatIds (.scalar i),
             valuesRef := self.valuesRef, writesRef := self.writesRef },
           h, [])) := by
    unfold iterViews
    exact List.map_congr_left (fun i _ =>
      _browse_shared_of_truthy self.cls remote h self.env (.scalar i)
        none self ht)
  have hhead : getitemInt remote h self 0 =
      (iterViews remote h self).head? := by
    cases hl : self.ids with
    | nil => exact absurd hl hne
    | cons a t =>
        have hpi : pyIndex self.ids 0 = some a := by
          rw [pyIndex_zero self.ids hne, hl]
          rfl
        rw [hint 0 a hpi, hiter, hl]
        rfl
  refine ⟨hslice, hint, hiter, hhead, ?_, ?_, ?_⟩
  · intro v1 v2 hh1 hh2 ev1 ev2 h1 h2
    rw [hhead, h1] at h2
    simp only [Option.some.injEq, Except.ok.injEq, Prod.mk.injEq] at h2
    obtain ⟨hv, -⟩ := h2
    subst hv
    simp [pyEq]
  · intro start stop v hh ev hres c f k
    rw [hslice start stop] at hres
    simp only [Except.ok.injEq, Prod.mk.injEq] at hres
    obtain ⟨hv, -⟩ := hres
    have hvref : v.valuesRef = self.valuesRef := by
      rw [← hv]
    rw [hvref]
    constructor
    · simp [Heap.setCacheAt]
    · simp [Heap.setCacheAt]
  · intro cls idsIn r h2 evs he
    have he2 : browseFresh cls remote h cls.env (normalizeNatIds idsIn)
        none = .ok (r, h2, evs) := he
    have hs := browseFresh_ok_shape cls remote h cls.env
      (normalizeNatIds idsIn) none r h2 evs he2
    refine ⟨?_, ?_, hs.2.1, hs.2.2⟩
    · rw [hs.1]
    · rw [hs.1]

theorem views_share_storage_amended_witness :
    rsA.ids ≠ [] ∧
    getitemSlice remoteAll heap0 rsA 0 1 =
      .ok ({ cls := rsA.cls, envLocal := some rsA.env, fromRecord := none,
             ids := normalizeNatIds (.list (pySlice rsA.ids 0 1)),
             valuesRef := rsA.valuesRef, writesRef := rsA.writesRef },
           heap0, []) ∧
    getitemInt remoteAll heap0 rsA 0 =
      (iterViews remoteAll heap0 rsA).head? :=
  ⟨by decide,
   (views_share_storage_amended remoteAll heap0 rsA (by decide)).1 0 1,
   (views_share_storage_amended remoteAll heap0 rsA (by decide)).2.2.2.1⟩

/-- C6 counterexample: slicing an *empty* origin recordset does not share
the origin's storage and does trigger a load — the view gets the freshly
allocated cache reference 5 (the origin's is 0) and a default-values RPC is
issued, refuting the claim for every-indexed/sliced view as stated. -/
theorem slice_of_empty_origin_not_shared :
    resultRec (getitemSlice remoteAll heap0 rsEmpty 0 1) =
      some { cls := cls0, envLocal := some cls0.env, fromRecord := none,
             ids := [], valuesRef := 5, writesRef := 6 } ∧
    rsEmpty.valuesRef = 0 ∧
    resultEvents (getitemSlice remoteAll heap0 rsEmpty 0 1) =
      some [.defaultGetCall "res.partner" ["name", "child_ids"]] ∧
    (5 : Nat) ≠ 0 := by
  refine ⟨rfl, rfl, rfl, by decide⟩

/-- C9: recordsets produced by integer/slice indexing or iteration never
carry a parent back-reference (even when the origin does), and `+=`/`-=`
on a recordset without a parent back-reference always fails with
InternalError "No parent record to update". -/
theorem views_lack_parent_ref_edits_fail
    (remote : Remote) (h h2 : Heap) (self : Recordset) :
    (∀ (i : Int) (r : Recordset) (hh : Heap) (evs : List RpcEvent),
       getitemInt remote h self i = some (.ok (r, hh, evs)) →
       r.fromRecord = none) ∧
    (∀ (start stop : Int) (r : Recordset) (hh : Heap)
       (evs : List RpcEvent),
       getitemSlice remote h self start stop = .ok (r, hh, evs) →
       r.fromRecord = none) ∧
    (∀ e ∈ iterViews remote h self, ∀ (r : Recordset) (hh : Heap)
       (evs : List RpcEvent), e = .ok (r, hh, evs) → r.fromRecord = none) ∧
    (∀ (r : Recordset) (recIds : List Nat), r.fromRecord = none →
       iadd h2 r recIds =
         .error (.internalError "No parent record to update") ∧
       isub h2 r recIds =
         .error (.internalError "No parent record to update")) := by
  refine ⟨?_, ?_, ?_, ?_⟩
  · intro i r hh evs he
    unfold getitemInt at he
    cases hpi : pyIndex self.ids i with
    | none =>
        rw [hpi] at he
        exact absurd he (by simp)
    | some id_ =>
        rw [hpi] at he
        simp only [Option.some.injEq] at he
        exact (browse_like_ok_shared_or_fresh self.cls remote h self.env
          (.scalar id_) (some self) r hh evs he).1
  · intro start stop r hh evs he
    exact (browse_like_ok_shared_or_fresh self.cls remote h self.env
      (.list (pySlice self.ids start stop)) (some self) r hh evs he).1
  · intro e hmem r hh evs hee
    unfold iterViews at hmem
    rw [List.mem_map] at hmem
    obtain ⟨i, -, hei⟩ := hmem
    rw [← hei] at hee
    exact (browse_like_ok_shared_or_fresh self.cls remote h self.env
      (.scalar i) (some self) r hh evs hee).1
  · intro r recIds hfr
    constructor
    · simp [iadd, hfr]
    · simp [isub, hfr]

theorem views_lack_parent_ref_edits_fail_witness :
    rsEmpty.fromRecord = none ∧
    iadd heap0 rsEmpty [5] =
      .error (.internalError "No parent record to update") :=
  ⟨rfl, ((views_lack_parent_ref_edits_fail remoteAll heap0 heap0
      rsA).2.2.2 rsEmpty [5] rfl).1⟩

end Odoorpc
